import Mathlib

/-!
Verification development for the VibeWriter post-generation engine.
The Python modules `src/utils.py`, `src/image_fetcher.py` and
`src/generator.py` are shallowly embedded below: pure Python functions
become Lean functions on `String`/`List Char`, the regex substitutions of
`re.sub` are translated operator by operator (leftmost match, greedy
quantifiers with the bounded backtracking the concrete patterns need),
Python's request-scoped `set` of fingerprints becomes a `List String`
used only through membership, and the `random` module is abstracted by a
caller-supplied seed-to-stream function consumed by CPython's
selection-sampling algorithm.
-/

namespace VibeWriter

/-- Whitespace test used to model Python's `str.strip` / regex `\s`
(ASCII whitespace; the repository's strings are ASCII). -/
def pyIsSpace (c : Char) : Bool :=
  c == ' ' || c == '\t' || c == '\n' || c == '\r' || c == '\x0b' || c == '\x0c'

def pyLstripL (cs : List Char) : List Char := cs.dropWhile pyIsSpace

def pyRstripL (cs : List Char) : List Char := (cs.reverse.dropWhile pyIsSpace).reverse

/-- Python `str.strip()`. -/
def pyStrip (s : String) : String := ⟨pyRstripL (pyLstripL s.data)⟩

/-- `re.sub(r"^\[[^\]]+\]\s*", "", text)`: drop a leading bracketed stub
marker (at least one non-`]` char between the brackets) and the
whitespace after it. -/
def strip_stub_marker (s : String) : String :=
  match s.data with
  | '[' :: rest =>
      let inner := rest.takeWhile (fun c => c != ']')
      if inner.isEmpty then s
      else
        match rest.drop inner.length with
        | ']' :: after => ⟨after.dropWhile pyIsSpace⟩
        | _ => s
  | _ => s

/-- Case-insensitive literal match: consume `lit` (given lowercase) from
the front of the input, returning the remainder. -/
def stripCiLit : List Char → List Char → Option (List Char)
  | [], cs => some cs
  | _ :: _, [] => none
  | l :: ls, c :: cs => if c.toLower == l then stripCiLit ls cs else none

/-- Anchored attempt of `\s*->\s*Example caption:\s*` (IGNORECASE).
Returns the suffix after the match.  The greedy `\s*` pieces never need
backtracking because each is followed by a non-whitespace literal. -/
def matchArrowAt (cs : List Char) : Option (List Char) :=
  match cs.dropWhile pyIsSpace with
  | '-' :: '>' :: rest =>
      match stripCiLit "example caption:".data (rest.dropWhile pyIsSpace) with
      | some rest3 => some (rest3.dropWhile pyIsSpace)
      | none => none
  | _ => none

/-- Scan for `re.sub` of the arrow pattern; fuel bounds the recursion and
is initialised to the string length (every match consumes at least two
characters, so the fuel never runs out). -/
def subArrowGo : Nat → List Char → List Char
  | 0, cs => cs
  | _ + 1, [] => []
  | fuel + 1, c :: rest =>
      match matchArrowAt (c :: rest) with
      | some after => subArrowGo fuel after
      | none => c :: subArrowGo fuel rest

/-- `re.sub(r"\s*->\s*Example caption:\s*", "", text, flags=re.IGNORECASE)`. -/
def strip_example_caption (s : String) : String := ⟨subArrowGo s.data.length s.data⟩

def isLocalChar (c : Char) : Bool :=
  c.isAlpha || c.isDigit || c == '.' || c == '_' || c == '%' || c == '+' || c == '-'

def isDomainChar (c : Char) : Bool :=
  c.isAlpha || c.isDigit || c == '.' || c == '-'

/-- Backtracking over the split of `[A-Za-z0-9.-]+\.[A-Za-z]{2,}` inside
the maximal domain-character run `dom`: try every position `j ≥ 1` of a
dot, largest first (the `+` is greedy), and require at least two letters
after it.  Returns the number of characters of `dom` consumed. -/
def findTldAux (dom : List Char) : List Nat → Option Nat
  | [] => none
  | j :: js =>
      if dom.getD j ' ' == '.' then
        let l := ((dom.drop (j + 1)).takeWhile (fun c => c.isAlpha)).length
        if 2 ≤ l then some (j + 1 + l) else findTldAux dom js
      else findTldAux dom js

/-- Anchored attempt of the email pattern
`[A-Za-z0-9._%+-]+@[A-Za-z0-9.-]+\.[A-Za-z]{2,}`.
Returns the suffix after the match. -/
def matchEmailAt (cs : List Char) : Option (List Char) :=
  let loc := cs.takeWhile isLocalChar
  if loc.isEmpty then none
  else
    match cs.drop loc.length with
    | '@' :: rest =>
        let dom := rest.takeWhile isDomainChar
        match findTldAux dom (((List.range dom.length).drop 1).reverse) with
        | some consumed => some (rest.drop consumed)
        | none => none
    | _ => none

def subEmailGo : Nat → List Char → List Char
  | 0, cs => cs
  | _ + 1, [] => []
  | fuel + 1, c :: rest =>
      match matchEmailAt (c :: rest) with
      | some after => "[email]".data ++ subEmailGo fuel after
      | none => c :: subEmailGo fuel rest

/-- Python regex `\w` (ASCII). -/
def isWordChar (c : Char) : Bool := c.isAlpha || c.isDigit || c == '_'

def isWordOpt : Option Char → Bool
  | some c => isWordChar c
  | none => false

def isPhoneClass (c : Char) : Bool := c.isDigit || c == '-' || pyIsSpace c

/-- Backtracking for `[0-9\-\s]{6,}[0-9]\b` after the leading digit:
`run` is the maximal class run, `next` the character following it.  Try
the final-digit position `j` largest first (`{6,}` is greedy), requiring
`run[j]` to be a digit followed by a non-word character (or the end). -/
def findPhoneEnd (run : List Char) (next : Option Char) : List Nat → Option Nat
  | [] => none
  | j :: js =>
      let after := if j + 1 < run.length then some (run.getD (j + 1) ' ') else next
      if (run.getD j ' ').isDigit && !(isWordOpt after) then some j
      else findPhoneEnd run next js

/-- Anchored attempt of `\b\+?[0-9][0-9\-\s]{6,}[0-9]\b` given the
character preceding the current position.  Returns the last matched
character (always a digit) and the suffix after the match. -/
def matchPhoneAt (prev : Option Char) (cs : List Char) : Option (Char × List Char) :=
  if isWordOpt prev == isWordOpt cs.head? then none
  else
    let cs1 := match cs with
      | '+' :: t => t
      | _ => cs
    match cs1 with
    | [] => none
    | d :: cs2 =>
        if !d.isDigit then none
        else
          let run := cs2.takeWhile isPhoneClass
          let next := (cs2.drop run.length).head?
          match findPhoneEnd run next (((List.range run.length).drop 6).reverse) with
          | some j => some (run.getD j ' ', cs2.drop (j + 1))
          | none => none

def subPhoneGo : Nat → Option Char → List Char → List Char
  | 0, _, cs => cs
  | _ + 1, _, [] => []
  | fuel + 1, prev, c :: rest =>
      match matchPhoneAt prev (c :: rest) with
      | some (lastc, after) => "[phone]".data ++ subPhoneGo fuel (some lastc) after
      | none => c :: subPhoneGo fuel (some c) rest

/-- `scrub_pii` from `src/utils.py`: email substitution, then phone
substitution. -/
def scrub_pii (s : String) : String :=
  let t1 : List Char := subEmailGo s.data.length s.data
  ⟨subPhoneGo t1.length none t1⟩

def PROFANITY_WORDS : List String := ["damn", "shit", "fuck"]

/-- `mask` from `minimal_profanity_filter`: words of length ≤ 2 become
all asterisks, longer words keep first and last character. -/
def maskWord (w : List Char) : List Char :=
  if w.length ≤ 2 then List.replicate w.length '*'
  else
    match w with
    | [] => []
    | c :: rest =>
        c :: (List.replicate (w.length - 2) '*' ++
          (match rest.getLast? with
           | some l => [l]
           | none => []))

/-- Case-insensitive literal match keeping the original characters. -/
def stripCiKeep : List Char → List Char → Option (List Char × List Char)
  | [], cs => some ([], cs)
  | _ :: _, [] => none
  | l :: ls, c :: cs =>
      if c.toLower == l then
        match stripCiKeep ls cs with
        | some (m, s) => some (c :: m, s)
        | none => none
      else none

/-- Anchored attempt of `\b<word>\b` (IGNORECASE); the word starts and
ends with letters, so the boundaries require non-word neighbours. -/
def matchWordCi (w : List Char) (prev : Option Char) (cs : List Char) :
    Option (List Char × List Char) :=
  if isWordOpt prev then none
  else
    match stripCiKeep w cs with
    | some (matched, suffix) =>
        if isWordOpt suffix.head? then none else some (matched, suffix)
    | none => none

def subWordGo (w : List Char) : Nat → Option Char → List Char → List Char
  | 0, _, cs => cs
  | _ + 1, _, [] => []
  | fuel + 1, prev, c :: rest =>
      match matchWordCi w prev (c :: rest) with
      | some (matched, suffix) =>
          maskWord matched ++ subWordGo w fuel matched.getLast? suffix
      | none => c :: subWordGo w fuel (some c) rest

def sub_profanity_word (w : String) (s : String) : String :=
  ⟨subWordGo w.data s.data.length none s.data⟩

/-- `minimal_profanity_filter` from `src/utils.py` (the three whole-word
substitutions are independent, so the set-iteration order of the source
does not matter). -/
def minimal_profanity_filter (s : String) : String :=
  sub_profanity_word "fuck" (sub_profanity_word "shit" (sub_profanity_word "damn" s))

/-- `truncate_text` from `src/utils.py`; `max_chars` is a Python `int`,
modelled as `Int`. -/
def truncate_text (text : String) (max_chars : Int) : String :=
  if max_chars ≤ 0 then ""
  else if (text.length : Int) ≤ max_chars then text
  else String.mk (pyRstripL (text.data.take (max 0 (max_chars - 1)).toNat)) ++ "…"

/-- The composition of the four cleaning stages of `safe_clean_output`
before truncation (stub-marker strip + `.strip()`, artifact strip, PII
scrub, profanity mask). -/
def clean_pre (text : String) : String :=
  minimal_profanity_filter (scrub_pii (strip_example_caption (pyStrip (strip_stub_marker text))))

/-- `safe_clean_output` from `src/utils.py` (the `max_chars` default of
500 is always passed explicitly here). -/
def safe_clean_output (text : String) (max_chars : Int) : String :=
  truncate_text (clean_pre text) max_chars

/-- `ImageResult` from `src/image_fetcher.py`. -/
structure ImageResult where
  query : String
  url : Option String
deriving DecidableEq, Repr

/-- `SuggestionFetcher.SUGGESTIONS`. -/
def SUGGESTIONS : List String :=
  ["product flatlay", "happy customers", "lifestyle coffee shop",
   "discount banner", "seasonal promo graphic", "close-up espresso"]

def hexDigit (n : Nat) : Char := "0123456789ABCDEF".data.getD n '0'

def percentByte (b : Nat) : List Char := ['%', hexDigit (b / 16), hexDigit (b % 16)]

def utf8Bytes (c : Char) : List Nat :=
  let n := c.toNat
  if n < 0x80 then [n]
  else if n < 0x800 then [0xC0 + n / 0x40, 0x80 + n % 0x40]
  else if n < 0x10000 then
    [0xE0 + n / 0x1000, 0x80 + (n / 0x40) % 0x40, 0x80 + n % 0x40]
  else
    [0xF0 + n / 0x40000, 0x80 + (n / 0x1000) % 0x40, 0x80 + (n / 0x40) % 0x40,
     0x80 + n % 0x40]

/-- `urllib.parse.quote_plus`: spaces become `+`, unreserved characters
stay, everything else is percent-encoded bytewise. -/
def quote_plus (s : String) : String :=
  ⟨s.data.foldr
    (fun c acc =>
      (if c == ' ' then ['+']
       else if c.isAlphanum || c == '_' || c == '.' || c == '-' || c == '~' then [c]
       else (utf8Bytes c).foldr (fun b a => percentByte b ++ a) []) ++ acc)
    []⟩

/-- CPython's `random.sample` on a small population (the pool-swap
selection algorithm): at step `i` draw an index below `n - i`, take that
element, move the last active element into its place and shrink the
active region.  The generator state is abstracted as a stream of
naturals, reduced into range with `%`. -/
def sampleSwap {α : Type} : List α → Nat → (Nat → Nat) → List α
  | _, 0, _ => []
  | pool, Nat.succ k, draws =>
      if h : 0 < pool.length then
        let j := draws 0 % pool.length
        let x := pool.get ⟨j, Nat.mod_lt _ h⟩
        let lastElem := pool.get ⟨pool.length - 1, Nat.sub_lt h Nat.one_pos⟩
        x :: sampleSwap ((pool.set j lastElem).take (pool.length - 1)) k
          (fun i => draws (i + 1))
      else []

/-- The Picsum placeholder URL built in `SuggestionFetcher.search`. -/
def picsum_url (pick : String) : String :=
  "https://picsum.photos/seed/" ++ quote_plus pick ++ "/800/600"

/-- `SuggestionFetcher.search`.  Python's module-level `random` is
modelled explicitly: `hashImpl` is the process's string hash (an `Int`,
as `hash` may be negative), `seedImpl` maps a seed value to the
post-seeding draw stream (abstracting the Mersenne Twister), and `rng`
is the generator state on entry — discarded by `random.seed`, exactly as
in the source. -/
def suggestion_search (seedImpl : Nat → Nat → Nat) (hashImpl : String → Int)
    (_rng : Nat → Nat) (query : String) (limit : Nat) (open_links : Bool) :
    List ImageResult :=
  if open_links then
    (sampleSwap SUGGESTIONS (min limit SUGGESTIONS.length)
        (seedImpl ((hashImpl query % ((2 : Int) ^ 32)).toNat))).map
      (fun pick => ⟨pick, some (picsum_url pick)⟩)
  else
    (sampleSwap SUGGESTIONS (min limit SUGGESTIONS.length)
        (seedImpl ((hashImpl query % ((2 : Int) ^ 32)).toNat))).map
      (fun pick => ⟨pick, none⟩)

/-- One generated post, `results` list element of `generate_posts`
(a dict with keys `text`, `image_query`, `image_url` in the source). -/
structure PostVariant where
  text : String
  image_query : String
  image_url : Option String
deriving DecidableEq, Repr

/-- `GeneratorResult` from `src/generator.py`. -/
structure GeneratorResult where
  topic : String
  variants : List PostVariant
deriving DecidableEq, Repr

/-- A single-quote character, used by the prompt templates. -/
def squote : String := String.singleton (Char.ofNat 39)

/-- `build_prompt` (applying `POST_TEMPLATE.format(topic=topic.strip())`). -/
def build_prompt (topic : String) : String :=
  "You are a creative social media copywriter. Write a short engaging post for: "
    ++ squote ++ pyStrip topic ++ squote
    ++ ". Keep it under 220 characters, add 2-3 relevant hashtags, and a positive CTA."

def style_cues : List String :=
  ["upbeat and witty tone",
   "informative and value-focused tone",
   "playful with emoji",
   "urgent, limited-time offer tone",
   "community-focused, inclusive tone",
   "minimalist, sleek tone",
   "friendly conversational tone",
   "trend-savvy, Gen Z tone",
   "professional, concise tone",
   "storytelling hook in first sentence"]

def attempt_alts : List String :=
  ["vary hashtags and CTA",
   "avoid repeating earlier wording",
   "use a different angle or benefit",
   "use different emoji (max 2)"]

/-- `diversify_prompt` from `generate_posts`. -/
def diversify_prompt (topic : String) (idx attempt : Nat) : String :=
  let cue := style_cues.getD (idx % style_cues.length) ""
  let alt := attempt_alts.getD (attempt % attempt_alts.length) ""
  "You are a creative social media copywriter. Write a short, unique post about: "
    ++ squote ++ pyStrip topic ++ squote
    ++ ". Use " ++ cue ++ "; " ++ alt
    ++ ". Keep it under 220 characters, include 2-3 relevant hashtags, and a positive CTA."

/-- `normalize_for_uniqueness` from `generate_posts`: strip a leading
bracketed marker, strip and lowercase, collapse whitespace runs. -/
def collapseWsAux : Bool → List Char → List Char
  | _, [] => []
  | prevSpace, c :: rest =>
      if pyIsSpace c then
        (if prevSpace then [] else [' ']) ++ collapseWsAux true rest
      else c :: collapseWsAux false rest

def normalize_for_uniqueness (text : String) : String :=
  let cleaned := pyStrip (strip_stub_marker text)
  let lowered := cleaned.data.map Char.toLower
  ⟨collapseWsAux false lowered⟩

/-- The per-slot attempt loop (step (a)): up to 4 diversification
attempts, accepting the first sanitized candidate whose fingerprint is
non-empty and unseen; returns the accepted `(text, fingerprint)`. -/
def attemptLoop (llm : String → Nat → String) (topic : String) (idx : Nat)
    (seen : List String) : List Nat → Option (String × String)
  | [] => none
  | attempt :: rest =>
      if normalize_for_uniqueness
            (safe_clean_output (llm (diversify_prompt topic idx attempt) 140) 220) ≠ ""
          ∧ normalize_for_uniqueness
              (safe_clean_output (llm (diversify_prompt topic idx attempt) 140) 220)
              ∉ seen then
        some (safe_clean_output (llm (diversify_prompt topic idx attempt) 140) 220,
          normalize_for_uniqueness
            (safe_clean_output (llm (diversify_prompt topic idx attempt) 140) 220))
      else attemptLoop llm topic idx seen rest

/-- The guard's suffixed candidate for try `k` (`k = 1` omits the `.k`). -/
def suffix_candidate (text : String) (idx k : Nat) : String :=
  if k = 1 then text ++ " · v" ++ toString (idx + 1)
  else text ++ " · v" ++ toString (idx + 1) ++ "." ++ toString k

/-- The guard's `for k in range(1, 5)` loop; returns the final text, the
final fingerprint, and whether every try collided (in which case text
and fingerprint are left unchanged — the loop just ends). -/
def guardTry (text norm_text : String) (idx : Nat) (seen : List String) :
    List Nat → String × String × Bool
  | [] => (text, norm_text, true)
  | k :: ks =>
      if normalize_for_uniqueness (suffix_candidate text idx k) ∈ seen then
        guardTry text norm_text idx seen ks
      else (suffix_candidate text idx k,
        normalize_for_uniqueness (suffix_candidate text idx k), false)

/-- The final uniqueness guard (source lines 110-120): recompute the
fingerprint and, on collision, run the suffix loop.  The `Bool` records
the pathological all-collide outcome. -/
def guardLoop (text : String) (idx : Nat) (seen : List String) :
    String × String × Bool :=
  if normalize_for_uniqueness text ∈ seen then
    guardTry text (normalize_for_uniqueness text) idx seen [1, 2, 3, 4]
  else (text, normalize_for_uniqueness text, false)

/-- One slot of `generate_posts`: attempt loop (recording the accepted
fingerprint immediately, as the source does), fallback text on
exhaustion, final guard, and the unconditional `seen_texts.add`.
Returns the slot's text, the updated fingerprint set, and the
pathological flag. -/
def generateSlot (llm : String → Nat → String) (topic : String) (idx : Nat)
    (seen : List String) : String × List String × Bool :=
  match attemptLoop llm topic idx seen [0, 1, 2, 3] with
  | some p =>
      ((guardLoop p.1 idx (p.2 :: seen)).1,
       (guardLoop p.1 idx (p.2 :: seen)).2.1 :: p.2 :: seen,
       (guardLoop p.1 idx (p.2 :: seen)).2.2)
  | none =>
      ((guardLoop (safe_clean_output (llm (build_prompt topic) 120) 210
          ++ " #" ++ toString (idx + 1)) idx seen).1,
       (guardLoop (safe_clean_output (llm (build_prompt topic) 120) 210
          ++ " #" ++ toString (idx + 1)) idx seen).2.1 :: seen,
       (guardLoop (safe_clean_output (llm (build_prompt topic) 120) 210
          ++ " #" ++ toString (idx + 1)) idx seen).2.2)

/-- Image assignment for a slot (source lines 100-106). -/
def assignImage (image_pool : List ImageResult) (image_query : String)
    (idx : Nat) : Option String × String :=
  if h : 0 < image_pool.length then
    let image_choice := image_pool.get ⟨idx % image_pool.length, Nat.mod_lt _ h⟩
    (image_choice.url, image_choice.query)
  else (none, image_query)

/-- The body of the `for idx in range(max(1, variants))` loop, threading
the fingerprint set and appending the emitted variant (and the slot's
pathological flag, recorded for specification purposes). -/
def genStep (llm : String → Nat → String) (topic : String)
    (image_pool : List ImageResult) (image_query : String)
    (st : List String × List PostVariant × List Bool) (idx : Nat) :
    List String × List PostVariant × List Bool :=
  ((generateSlot llm topic idx st.1).2.1,
   st.2.1 ++ [⟨(generateSlot llm topic idx st.1).1,
     (assignImage image_pool image_query idx).2,
     (assignImage image_pool image_query idx).1⟩],
   st.2.2 ++ [(generateSlot llm topic idx st.1).2.2])

/-- `generate_posts` (instrumented core): fetch the image pool once with
`limit = max(1, variants)`, then run the slot loop.  Returns the final
fingerprint set, the variants, and the per-slot pathological flags. -/
def generate_core (topic : String) (variants : Int)
    (llm : String → Nat → String)
    (image_fetcher : String → Nat → Bool → List ImageResult)
    (open_links : Bool) : List String × List PostVariant × List Bool :=
  let image_query := topic
  let requested_images := (max 1 variants).toNat
  let image_pool := image_fetcher image_query requested_images open_links
  (List.range requested_images).foldl
    (genStep llm topic image_pool image_query) ([], [], [])

/-- `generate_posts` from `src/generator.py`. -/
def generate_posts (topic : String) (variants : Int)
    (llm : String → Nat → String)
    (image_fetcher : String → Nat → Bool → List ImageResult)
    (open_links : Bool) : GeneratorResult :=
  ⟨topic, (generate_core topic variants llm image_fetcher open_links).2.1⟩

/-- The per-slot all-suffixes-collided flags of a `generate_posts` run
(`true` exactly when the final guard fired and every suffix try
collided). -/
def generate_patho (topic : String) (variants : Int)
    (llm : String → Nat → String)
    (image_fetcher : String → Nat → Bool → List ImageResult)
    (open_links : Bool) : List Bool :=
  (generate_core topic variants llm image_fetcher open_links).2.2

/-- A text capability that always returns the same caption. -/
def llmConst (s : String) : String → Nat → String := fun _ _ => s

/-- An image capability returning an empty pool. -/
def fetchEmpty : String → Nat → Bool → List ImageResult := fun _ _ _ => []

/-- An image capability returning a fixed one-element pool. -/
def fetchOne : String → Nat → Bool → List ImageResult :=
  fun _ _ _ => [⟨"coffee shop", some "http://example.com/img.jpg"⟩]

/-- A text capability, dispatching on prompt length, that drives a
6-variant run of `generate_posts` into the all-suffixes-collide case at
slot 5: slots 0-4 accept `"base #6"` and its four guard suffixes (each
then gets its own `· v<i+1>` tag from the always-firing guard), slot 5's
diversification attempts yield nothing fresh, and its fallback text
`"base #6"` collides with every suffix try. -/
def llmC4 : String → Nat → String := fun p _ =>
  if p.length = (build_prompt "t").length then "base"
  else if p.length = (diversify_prompt "t" 0 0).length then "base #6"
  else if p.length = (diversify_prompt "t" 1 0).length then "base #6 · v6"
  else if p.length = (diversify_prompt "t" 2 0).length then "base #6 · v6.2"
  else if p.length = (diversify_prompt "t" 3 0).length then "base #6 · v6.3"
  else if p.length = (diversify_prompt "t" 4 0).length then "base #6 · v6.4"
  else ""

theorem pyRstripL_length_le (cs : List Char) : (pyRstripL cs).length ≤ cs.length := by
  unfold pyRstripL
  calc ((cs.reverse.dropWhile pyIsSpace).reverse).length
      = (cs.reverse.dropWhile pyIsSpace).length := List.length_reverse _
    _ ≤ cs.reverse.length := (List.dropWhile_sublist _).length_le
    _ = cs.length := List.length_reverse _

theorem truncate_text_length_le (s : String) (n : Int) (hn : 0 ≤ n) :
    ((truncate_text s n).length : Int) ≤ n := by
  unfold truncate_text
  split_ifs with h1 h2
  · simp [hn]
  · exact h2
  · have hmax : max 0 (n - 1) = n - 1 := max_eq_right (by omega)
    rw [hmax]
    have h3 : (pyRstripL (s.data.take (n - 1).toNat)).length ≤ (n - 1).toNat := by
      refine le_trans (pyRstripL_length_le _) ?_
      rw [List.length_take]
      exact Nat.min_le_left _ _
    have h4 : (String.mk (pyRstripL (s.data.take (n - 1).toNat)) ++ "…").length
        = (pyRstripL (s.data.take (n - 1).toNat)).length + 1 := by
      simp
      decide
    rw [h4]
    push_cast
    omega

/-- C6: `safe_clean_output` obeys the truncation law: the output length
never exceeds `max_chars` (for `max_chars ≥ 0`), a non-positive
`max_chars` yields the empty string, and when the cleaned pre-truncation
text exceeds the limit the output is its first `max_chars - 1`
characters, right-stripped, followed by one ellipsis character. -/
theorem C6_truncation_law (x : String) (n : Int) :
    (0 ≤ n → ((safe_clean_output x n).length : Int) ≤ n) ∧
    (n ≤ 0 → safe_clean_output x n = "") ∧
    (1 ≤ n → (n : Int) < ((clean_pre x).length : Int) →
      safe_clean_output x n
        = String.mk (pyRstripL ((clean_pre x).data.take (n - 1).toNat)) ++ "…") := by
  refine ⟨fun hn => truncate_text_length_le _ _ hn, fun hn => ?_, fun h1 h2 => ?_⟩
  · unfold safe_clean_output truncate_text
    rw [if_pos hn]
  · unfold safe_clean_output truncate_text
    rw [if_neg (by omega), if_neg (by omega)]
    have hmax : max 0 (n - 1) = n - 1 := max_eq_right (by omega)
    rw [hmax]

set_option maxRecDepth 4096 in
theorem C6_truncation_law_witness :
    ((0 : Int) ≤ 5 ∧ ((safe_clean_output "Hello cruel world" 5).length : Int) ≤ 5) ∧
    ((-2 : Int) ≤ 0 ∧ safe_clean_output "Hello cruel world" (-2) = "") ∧
    ((1 : Int) ≤ 5 ∧ (5 : Int) < ((clean_pre "Hello cruel world").length : Int) ∧
      safe_clean_output "Hello cruel world" 5
        = String.mk (pyRstripL ((clean_pre "Hello cruel world").data.take
            ((5 : Int) - 1).toNat)) ++ "…") :=
  ⟨⟨by norm_num, (C6_truncation_law "Hello cruel world" 5).1 (by norm_num)⟩,
   ⟨by norm_num, (C6_truncation_law "Hello cruel world" (-2)).2.1 (by norm_num)⟩,
   ⟨by norm_num, by decide,
    (C6_truncation_law "Hello cruel world" 5).2.2 (by norm_num) (by decide)⟩⟩

/-- C7: the sanitizer redacts the email and the phone number of the
spec's Scenario C to the fixed placeholder tokens. -/
theorem C7_pii_scenario :
    safe_clean_output "Contact me at a@b.com or 555-123-4567" 500
      = "Contact me at [email] or [phone]" := by decide

/-- C8: the sanitizer is idempotent on every input whose sanitized form
is left unchanged by each cleaning stage (no fresh bracket-marker,
artifact, PII or profanity patterns in the output). -/
theorem C8_idempotent (x : String) (n : Int)
    (h1 : pyStrip (strip_stub_marker (safe_clean_output x n)) = safe_clean_output x n)
    (h2 : strip_example_caption (safe_clean_output x n) = safe_clean_output x n)
    (h3 : scrub_pii (safe_clean_output x n) = safe_clean_output x n)
    (h4 : minimal_profanity_filter (safe_clean_output x n) = safe_clean_output x n) :
    safe_clean_output (safe_clean_output x n) n = safe_clean_output x n := by
  have hpre : clean_pre (safe_clean_output x n) = safe_clean_output x n := by
    unfold clean_pre
    rw [h1, h2, h3, h4]
  show truncate_text (clean_pre (safe_clean_output x n)) n = safe_clean_output x n
  rw [hpre]
  by_cases hn : n ≤ 0
  · have he : safe_clean_output x n = "" := by
      unfold safe_clean_output truncate_text
      rw [if_pos hn]
    rw [he]
    unfold truncate_text
    rw [if_pos hn]
  · have hlen : ((safe_clean_output x n).length : Int) ≤ n :=
      truncate_text_length_le _ _ (by omega)
    unfold truncate_text
    rw [if_neg hn, if_pos hlen]

set_option maxRecDepth 4096 in
theorem C8_idempotent_witness :
    (pyStrip (strip_stub_marker (safe_clean_output "Hello world" 500))
        = safe_clean_output "Hello world" 500) ∧
    (strip_example_caption (safe_clean_output "Hello world" 500)
        = safe_clean_output "Hello world" 500) ∧
    (scrub_pii (safe_clean_output "Hello world" 500)
        = safe_clean_output "Hello world" 500) ∧
    (minimal_profanity_filter (safe_clean_output "Hello world" 500)
        = safe_clean_output "Hello world" 500) ∧
    safe_clean_output (safe_clean_output "Hello world" 500) 500
      = safe_clean_output "Hello world" 500 :=
  ⟨by decide, by decide, by decide, by decide,
   C8_idempotent "Hello world" 500 (by decide) (by decide) (by decide) (by decide)⟩

/-- C1 (code bug witness): a text accepted by the first diversification
attempt — fingerprint fresh and recorded at acceptance — is nevertheless
rewritten by the final uniqueness guard, which finds the just-recorded
fingerprint in the set and appends the first suffix variant: with a
constant backend returning `"Hello world"`, the single emitted variant
carries `"Hello world · v1"`, not the accepted `"Hello world"`. -/
theorem C1_guard_rewrites_accepted_text :
    generate_posts "t" 1 (llmConst "Hello world") fetchEmpty false
      = ⟨"t", [⟨"Hello world · v1", "t", none⟩]⟩ := by decide

theorem genStep_variants_length (llm : String → Nat → String) (topic : String)
    (pool : List ImageResult) (iq : String) :
    ∀ (L : List Nat) (st : List String × List PostVariant × List Bool),
      ((L.foldl (genStep llm topic pool iq) st).2.1).length = st.2.1.length + L.length := by
  intro L
  induction L with
  | nil => intro st; simp
  | cons i L ih =>
      intro st
      rw [List.foldl_cons, ih]
      simp [genStep]
      omega

/-- C3: for every topic, every integer variant count (negative and zero
included) and any capabilities, `generate_posts` returns exactly
`max 1 variants` variants. -/
theorem C3_variant_count (topic : String) (variants : Int)
    (llm : String → Nat → String)
    (image_fetcher : String → Nat → Bool → List ImageResult) (open_links : Bool) :
    (((generate_posts topic variants llm image_fetcher open_links).variants.length : Int))
      = max 1 variants := by
  show (((generate_core topic variants llm image_fetcher open_links).2.1.length : Int))
      = max 1 variants
  unfold generate_core
  rw [genStep_variants_length]
  simp

/-- C9: the suggestion-mode image search is deterministic: the result is
independent of the generator state on entry (re-seeded from the query's
hash alone), so two calls with hash-equal queries and the same limit and
`open_links` flag agree. -/
theorem C9_deterministic (seedImpl : Nat → Nat → Nat) (hashImpl : String → Int)
    (rng1 rng2 : Nat → Nat) (q1 q2 : String) (limit : Nat) (open_links : Bool)
    (h : hashImpl q1 = hashImpl q2) :
    suggestion_search seedImpl hashImpl rng1 q1 limit open_links
      = suggestion_search seedImpl hashImpl rng2 q2 limit open_links := by
  unfold suggestion_search
  rw [h]

theorem C9_deterministic_witness :
    ((fun q : String => (q.length : Int)) "espresso deal"
        = (fun q : String => (q.length : Int)) "espresso deal") ∧
    suggestion_search (fun s i => s + i) (fun q => (q.length : Int)) (fun n => n)
        "espresso deal" 2 false
      = suggestion_search (fun s i => s + i) (fun q => (q.length : Int)) (fun _ => 0)
        "espresso deal" 2 false :=
  ⟨rfl, C9_deterministic (fun s i => s + i) (fun q => (q.length : Int))
    (fun n => n) (fun _ => 0) "espresso deal" "espresso deal" 2 false rfl⟩

set_option maxRecDepth 100000 in
set_option maxHeartbeats 1000000 in
/-- C4 (counterexample): a run in which slot 5's final guard finds all
four suffix variants colliding: the emitted text is the original
`"base #6"`, NOT the last-generated `".4"` suffix variant. -/
theorem C4_counterexample :
    generate_patho "t" 6 llmC4 fetchEmpty false
        = [false, false, false, false, false, true] ∧
    ((generate_posts "t" 6 llmC4 fetchEmpty false).variants.map
        PostVariant.text).getD 5 "" = "base #6" ∧
    "base #6" ≠ "base #6 · v6.4" := by
  refine ⟨by decide, by decide, by decide⟩

theorem guardTry_hit (t nt : String) (idx : Nat) (seen : List String) (k : Nat)
    (ks : List Nat)
    (h : normalize_for_uniqueness (suffix_candidate t idx k) ∈ seen) :
    guardTry t nt idx seen (k :: ks) = guardTry t nt idx seen ks := by
  simp only [guardTry]
  rw [if_pos h]

/-- C4 (amended): when the final uniqueness guard fires and all 4 suffix
variants collide with recorded fingerprints, the slot's text is left as
the original colliding text (no suffix is applied), and the fingerprint
recorded for the slot is that original — already present — fingerprint. -/
theorem C4_amended_guard (text : String) (idx : Nat) (seen : List String)
    (hfire : normalize_for_uniqueness text ∈ seen)
    (hall : ∀ k ∈ [1, 2, 3, 4],
      normalize_for_uniqueness (suffix_candidate text idx k) ∈ seen) :
    guardLoop text idx seen = (text, normalize_for_uniqueness text, true) := by
  have h1 := hall 1 (by simp)
  have h2 := hall 2 (by simp)
  have h3 := hall 3 (by simp)
  have h4 := hall 4 (by simp)
  unfold guardLoop
  rw [if_pos hfire, guardTry_hit _ _ _ _ _ _ h1, guardTry_hit _ _ _ _ _ _ h2,
    guardTry_hit _ _ _ _ _ _ h3, guardTry_hit _ _ _ _ _ _ h4]
  rfl

theorem C4_amended_guard_witness :
    guardLoop "a" 0 ["a", "a · v1", "a · v1.2", "a · v1.3", "a · v1.4"]
      = ("a", "a", true) := by
  rw [C4_amended_guard "a" 0 _ (by decide) (by decide)]
  decide

theorem guardTry_norm (idx : Nat) (seen : List String) :
    ∀ (ks : List Nat) (t nt : String), nt = normalize_for_uniqueness t →
      (guardTry t nt idx seen ks).2.1
        = normalize_for_uniqueness (guardTry t nt idx seen ks).1 := by
  intro ks
  induction ks with
  | nil => intro t nt h; simpa [guardTry] using h
  | cons k ks ih =>
      intro t nt h
      by_cases hc : normalize_for_uniqueness (suffix_candidate t idx k) ∈ seen
      · simp only [guardTry]
        rw [if_pos hc]
        exact ih t nt h
      · simp [guardTry, hc]

theorem guardTry_fresh (idx : Nat) (seen : List String) :
    ∀ (ks : List Nat) (t nt : String),
      (guardTry t nt idx seen ks).2.2 = false →
      (guardTry t nt idx seen ks).2.1 ∉ seen := by
  intro ks
  induction ks with
  | nil => intro t nt h; simp [guardTry] at h
  | cons k ks ih =>
      intro t nt h
      by_cases hc : normalize_for_uniqueness (suffix_candidate t idx k) ∈ seen
      · simp only [guardTry] at h ⊢
        rw [if_pos hc] at h ⊢
        exact ih t nt h
      · simp [guardTry, hc]

theorem guardLoop_norm (t : String) (idx : Nat) (seen : List String) :
    (guardLoop t idx seen).2.1 = normalize_for_uniqueness (guardLoop t idx seen).1 := by
  unfold guardLoop
  split_ifs with h
  · exact guardTry_norm idx seen _ t _ rfl
  · rfl

theorem guardLoop_fresh (t : String) (idx : Nat) (seen : List String)
    (h : (guardLoop t idx seen).2.2 = false) :
    (guardLoop t idx seen).2.1 ∉ seen := by
  unfold guardLoop at h ⊢
  split_ifs at h ⊢ with hc
  · exact guardTry_fresh idx seen _ t _ h
  · exact hc

theorem attemptLoop_spec (llm : String → Nat → String) (topic : String) (idx : Nat)
    (seen : List String) :
    ∀ (attempts : List Nat) (p : String × String),
      attemptLoop llm topic idx seen attempts = some p →
      p.2 = normalize_for_uniqueness p.1 ∧ p.2 ∉ seen := by
  intro attempts
  induction attempts with
  | nil => intro p h; simp [attemptLoop] at h
  | cons a rest ih =>
      intro p h
      simp only [attemptLoop] at h
      split_ifs at h with hc
      · have h2 := Option.some.inj h
        refine ⟨?_, ?_⟩
        · rw [← h2]
        · rw [← h2]
          exact hc.2
      · exact ih p h

theorem generateSlot_eq_some (llm : String → Nat → String) (topic : String)
    (idx : Nat) (seen : List String) (p : String × String)
    (ha : attemptLoop llm topic idx seen [0, 1, 2, 3] = some p) :
    generateSlot llm topic idx seen
      = ((guardLoop p.1 idx (p.2 :: seen)).1,
         (guardLoop p.1 idx (p.2 :: seen)).2.1 :: p.2 :: seen,
         (guardLoop p.1 idx (p.2 :: seen)).2.2) := by
  unfold generateSlot
  rw [ha]

theorem generateSlot_eq_none (llm : String → Nat → String) (topic : String)
    (idx : Nat) (seen : List String)
    (ha : attemptLoop llm topic idx seen [0, 1, 2, 3] = none) :
    generateSlot llm topic idx seen
      = ((guardLoop (safe_clean_output (llm (build_prompt topic) 120) 210
            ++ " #" ++ toString (idx + 1)) idx seen).1,
         (guardLoop (safe_clean_output (llm (build_prompt topic) 120) 210
            ++ " #" ++ toString (idx + 1)) idx seen).2.1 :: seen,
         (guardLoop (safe_clean_output (llm (build_prompt topic) 120) 210
            ++ " #" ++ toString (idx + 1)) idx seen).2.2) := by
  unfold generateSlot
  rw [ha]

theorem generateSlot_mono (llm : String → Nat → String) (topic : String) (idx : Nat)
    (seen : List String) (s : String) (hs : s ∈ seen) :
    s ∈ (generateSlot llm topic idx seen).2.1 := by
  cases ha : attemptLoop llm topic idx seen [0, 1, 2, 3] with
  | some p =>
      rw [generateSlot_eq_some llm topic idx seen p ha]
      exact List.mem_cons_of_mem _ (List.mem_cons_of_mem _ hs)
  | none =>
      rw [generateSlot_eq_none llm topic idx seen ha]
      exact List.mem_cons_of_mem _ hs

theorem generateSlot_mem (llm : String → Nat → String) (topic : String) (idx : Nat)
    (seen : List String) :
    normalize_for_uniqueness (generateSlot llm topic idx seen).1
      ∈ (generateSlot llm topic idx seen).2.1 := by
  cases ha : attemptLoop llm topic idx seen [0, 1, 2, 3] with
  | some p =>
      rw [generateSlot_eq_some llm topic idx seen p ha]
      rw [← guardLoop_norm]
      exact List.mem_cons_self _ _
  | none =>
      rw [generateSlot_eq_none llm topic idx seen ha]
      rw [← guardLoop_norm]
      exact List.mem_cons_self _ _

theorem generateSlot_fresh (llm : String → Nat → String) (topic : String) (idx : Nat)
    (seen : List String)
    (h : (generateSlot llm topic idx seen).2.2 = false) :
    normalize_for_uniqueness (generateSlot llm topic idx seen).1 ∉ seen := by
  cases ha : attemptLoop llm topic idx seen [0, 1, 2, 3] with
  | some p =>
      rw [generateSlot_eq_some llm topic idx seen p ha] at h ⊢
      have hf := guardLoop_fresh p.1 idx (p.2 :: seen) h
      rw [guardLoop_norm] at hf
      exact fun hmem => hf (List.mem_cons_of_mem _ hmem)
  | none =>
      rw [generateSlot_eq_none llm topic idx seen ha] at h ⊢
      have hf := guardLoop_fresh _ idx seen h
      rw [guardLoop_norm] at hf
      exact hf

theorem genStep_flags_mono (llm : String → Nat → String) (topic : String)
    (pool : List ImageResult) (iq : String) :
    ∀ (L : List Nat) (st : List String × List PostVariant × List Bool) (b : Bool),
      b ∈ st.2.2 → b ∈ (L.foldl (genStep llm topic pool iq) st).2.2 := by
  intro L
  induction L with
  | nil => intro st b hb; simpa using hb
  | cons i L ih =>
      intro st b hb
      rw [List.foldl_cons]
      exact ih _ b (by simp [genStep, hb])

set_option maxHeartbeats 2000000 in
theorem genStep_fold_inv (llm : String → Nat → String) (topic : String)
    (pool : List ImageResult) (iq : String) :
    ∀ (L : List Nat) (st : List String × List PostVariant × List Bool),
      (∀ b ∈ (L.foldl (genStep llm topic pool iq) st).2.2, b = false) →
      (∀ v ∈ st.2.1, normalize_for_uniqueness v.text ∈ st.1) →
      st.2.1.Pairwise
        (fun a b => normalize_for_uniqueness a.text ≠ normalize_for_uniqueness b.text) →
      (L.foldl (genStep llm topic pool iq) st).2.1.Pairwise
        (fun a b => normalize_for_uniqueness a.text ≠ normalize_for_uniqueness b.text) := by
  intro L
  induction L with
  | nil => intro st _ _ hpw; simpa using hpw
  | cons i L ih =>
      intro st hflags hmem hpw
      rw [List.foldl_cons] at hflags ⊢
      refine ih _ hflags ?_ ?_
      · intro v hv
        simp only [genStep] at hv ⊢
        rcases List.mem_append.mp hv with hold | hnew
        · exact generateSlot_mono _ _ _ _ _ (hmem v hold)
        · obtain ⟨vt, vq, vu⟩ := v
          have hv2 : vt = (generateSlot llm topic i st.1).1 ∧
              vq = (assignImage pool iq i).2 ∧ vu = (assignImage pool iq i).1 := by
            simpa only [List.mem_singleton, PostVariant.mk.injEq] using hnew
          show normalize_for_uniqueness vt ∈ _
          rw [hv2.1]
          exact generateSlot_mem llm topic i st.1
      · simp only [genStep]
        rw [List.pairwise_append]
        refine ⟨hpw, by simp, ?_⟩
        intro a ha b hb
        obtain ⟨bt, bq, bu⟩ := b
        have hb2 : bt = (generateSlot llm topic i st.1).1 ∧
            bq = (assignImage pool iq i).2 ∧ bu = (assignImage pool iq i).1 := by
          simpa only [List.mem_singleton, PostVariant.mk.injEq] using hb
        have h1 : normalize_for_uniqueness a.text ∈ st.1 := hmem a ha
        have hflag : (generateSlot llm topic i st.1).2.2 = false := by
          apply hflags
          apply genStep_flags_mono
          simp [genStep]
        have h2 := generateSlot_fresh llm topic i st.1 hflag
        show normalize_for_uniqueness a.text ≠ normalize_for_uniqueness bt
        rw [hb2.1]
        intro he
        rw [← he] at h2
        exact h2 h1

/-- C2: in every `generate_posts` run in which no slot hit the
pathological all-suffixes-collide case, the normalized fingerprints of
the emitted variants are pairwise distinct. -/
theorem C2_uniqueness (topic : String) (variants : Int)
    (llm : String → Nat → String)
    (image_fetcher : String → Nat → Bool → List ImageResult) (open_links : Bool)
    (h : ∀ b ∈ generate_patho topic variants llm image_fetcher open_links, b = false) :
    (generate_posts topic variants llm image_fetcher open_links).variants.Pairwise
      (fun a b =>
        normalize_for_uniqueness a.text ≠ normalize_for_uniqueness b.text) := by
  have h2 : ∀ b ∈ (generate_core topic variants llm image_fetcher open_links).2.2,
      b = false := h
  show (generate_core topic variants llm image_fetcher open_links).2.1.Pairwise _
  unfold generate_core at h2 ⊢
  exact genStep_fold_inv _ _ _ _ _ _ h2 (by simp) (by simp)

theorem C2_uniqueness_witness :
    (∀ b ∈ generate_patho "t" 2 (llmConst "Hello world") fetchEmpty false,
        b = false) ∧
    (generate_posts "t" 2 (llmConst "Hello world") fetchEmpty false).variants.Pairwise
      (fun a b =>
        normalize_for_uniqueness a.text ≠ normalize_for_uniqueness b.text) :=
  ⟨by decide, C2_uniqueness "t" 2 (llmConst "Hello world") fetchEmpty false (by decide)⟩

theorem generate_posts_variants (topic : String) (variants : Int)
    (llm : String → Nat → String)
    (image_fetcher : String → Nat → Bool → List ImageResult) (open_links : Bool) :
    (generate_posts topic variants llm image_fetcher open_links).variants
      = ((List.range (max 1 variants).toNat).foldl
          (genStep llm topic (image_fetcher topic (max 1 variants).toNat open_links)
            topic)
          ([], [], [])).2.1 := rfl

theorem genStep_image_proj (llm : String → Nat → String) (topic : String)
    (pool : List ImageResult) (iq : String) :
    ∀ (L : List Nat) (st : List String × List PostVariant × List Bool),
      ((L.foldl (genStep llm topic pool iq) st).2.1).map
          (fun v => (v.image_query, v.image_url))
        = st.2.1.map (fun v => (v.image_query, v.image_url))
          ++ L.map
              (fun idx => ((assignImage pool iq idx).2, (assignImage pool iq idx).1)) := by
  intro L
  induction L with
  | nil => intro st; simp
  | cons i L ih =>
      intro st
      rw [List.foldl_cons, ih]
      simp [genStep]

/-- C5: image assignment is cyclic by slot index: with a non-empty pool
fetched once (limit `max 1 variants`), slot `i` carries pool entry
`i mod pool_size`; with an empty pool it carries no URL and the caller's
topic as query. -/
theorem C5_image_assignment (topic : String) (variants : Int)
    (llm : String → Nat → String)
    (image_fetcher : String → Nat → Bool → List ImageResult) (open_links : Bool)
    (i : Nat)
    (hi : i < (generate_posts topic variants llm image_fetcher open_links).variants.length) :
    (0 < (image_fetcher topic (max 1 variants).toNat open_links).length →
      ((generate_posts topic variants llm image_fetcher open_links).variants.getD i
          ⟨"", "", none⟩).image_url
        = ((image_fetcher topic (max 1 variants).toNat open_links).getD
            (i % (image_fetcher topic (max 1 variants).toNat open_links).length)
            ⟨"", none⟩).url ∧
      ((generate_posts topic variants llm image_fetcher open_links).variants.getD i
          ⟨"", "", none⟩).image_query
        = ((image_fetcher topic (max 1 variants).toNat open_links).getD
            (i % (image_fetcher topic (max 1 variants).toNat open_links).length)
            ⟨"", none⟩).query) ∧
    ((image_fetcher topic (max 1 variants).toNat open_links).length = 0 →
      ((generate_posts topic variants llm image_fetcher open_links).variants.getD i
          ⟨"", "", none⟩).image_url = none ∧
      ((generate_posts topic variants llm image_fetcher open_links).variants.getD i
          ⟨"", "", none⟩).image_query = topic) := by
  have hmap : (generate_posts topic variants llm image_fetcher open_links).variants.map
      (fun v => (v.image_query, v.image_url))
      = (List.range (max 1 variants).toNat).map
          (fun idx =>
            ((assignImage (image_fetcher topic (max 1 variants).toNat open_links)
                topic idx).2,
             (assignImage (image_fetcher topic (max 1 variants).toNat open_links)
                topic idx).1)) := by
    rw [generate_posts_variants, genStep_image_proj]
    simp
  have hn : i < (max 1 variants).toNat := by
    have hlen : (generate_posts topic variants llm image_fetcher open_links).variants.length
        = (max 1 variants).toNat := by
      rw [generate_posts_variants, genStep_variants_length]
      simp
    rw [hlen] at hi
    exact hi
  have hidx : ((generate_posts topic variants llm image_fetcher open_links).variants.map
      (fun v => (v.image_query, v.image_url)))[i]?
      = some ((assignImage (image_fetcher topic (max 1 variants).toNat open_links)
            topic i).2,
          (assignImage (image_fetcher topic (max 1 variants).toNat open_links)
            topic i).1) := by
    rw [hmap, List.getElem?_map, List.getElem?_range hn]
    rfl
  rw [List.getElem?_map, List.getElem?_eq_getElem hi] at hidx
  have hfields := Option.some.inj hidx
  have hgetd : (generate_posts topic variants llm image_fetcher open_links).variants.getD i
      ⟨"", "", none⟩
      = (generate_posts topic variants llm image_fetcher open_links).variants[i] :=
    List.getD_eq_getElem _ _ hi
  have hq : ((generate_posts topic variants llm image_fetcher open_links).variants.getD i
      ⟨"", "", none⟩).image_query
      = (assignImage (image_fetcher topic (max 1 variants).toNat open_links) topic i).2 := by
    rw [hgetd]
    exact congrArg Prod.fst hfields
  have hu : ((generate_posts topic variants llm image_fetcher open_links).variants.getD i
      ⟨"", "", none⟩).image_url
      = (assignImage (image_fetcher topic (max 1 variants).toNat open_links) topic i).1 := by
    rw [hgetd]
    exact congrArg Prod.snd hfields
  refine ⟨fun hp => ?_, fun hz => ?_⟩
  · have ha : assignImage (image_fetcher topic (max 1 variants).toNat open_links) topic i
        = (((image_fetcher topic (max 1 variants).toNat open_links).get
            ⟨i % (image_fetcher topic (max 1 variants).toNat open_links).length,
             Nat.mod_lt _ hp⟩).url,
           ((image_fetcher topic (max 1 variants).toNat open_links).get
            ⟨i % (image_fetcher topic (max 1 variants).toNat open_links).length,
             Nat.mod_lt _ hp⟩).query) := by
      unfold assignImage
      rw [dif_pos hp]
    have hgd : (image_fetcher topic (max 1 variants).toNat open_links).getD
        (i % (image_fetcher topic (max 1 variants).toNat open_links).length) ⟨"", none⟩
        = (image_fetcher topic (max 1 variants).toNat open_links).get
            ⟨i % (image_fetcher topic (max 1 variants).toNat open_links).length,
             Nat.mod_lt _ hp⟩ := by
      rw [List.getD_eq_getElem _ _ (Nat.mod_lt _ hp)]
      simp
    rw [hu, hq, ha, hgd]
    exact ⟨rfl, rfl⟩
  · have ha : assignImage (image_fetcher topic (max 1 variants).toNat open_links) topic i
        = (none, topic) := by
      unfold assignImage
      rw [dif_neg (by omega)]
    rw [hu, hq, ha]
    exact ⟨rfl, rfl⟩

theorem C5_image_assignment_witness :
    (0 < (fetchOne "t" (max 1 (2 : Int)).toNat true).length →
      ((generate_posts "t" 2 (llmConst "Buy now!") fetchOne true).variants.getD 0
          ⟨"", "", none⟩).image_url
        = ((fetchOne "t" (max 1 (2 : Int)).toNat true).getD
            (0 % (fetchOne "t" (max 1 (2 : Int)).toNat true).length) ⟨"", none⟩).url ∧
      ((generate_posts "t" 2 (llmConst "Buy now!") fetchOne true).variants.getD 0
          ⟨"", "", none⟩).image_query
        = ((fetchOne "t" (max 1 (2 : Int)).toNat true).getD
            (0 % (fetchOne "t" (max 1 (2 : Int)).toNat true).length) ⟨"", none⟩).query) ∧
    ((fetchOne "t" (max 1 (2 : Int)).toNat true).length = 0 →
      ((generate_posts "t" 2 (llmConst "Buy now!") fetchOne true).variants.getD 0
          ⟨"", "", none⟩).image_url = none ∧
      ((generate_posts "t" 2 (llmConst "Buy now!") fetchOne true).variants.getD 0
          ⟨"", "", none⟩).image_query = "t") :=
  C5_image_assignment "t" 2 (llmConst "Buy now!") fetchOne true 0 (by decide)

theorem sampleSwap_length {α : Type} :
    ∀ (k : Nat) (pool : List α) (draws : Nat → Nat), k ≤ pool.length →
      (sampleSwap pool k draws).length = k := by
  intro k
  induction k with
  | zero => intro pool draws _; rfl
  | succ k ih =>
      intro pool draws h
      have hp : 0 < pool.length := by omega
      simp only [sampleSwap]
      rw [dif_pos hp]
      simp only [List.length_cons]
      rw [ih]
      rw [List.length_take, List.length_set]
      omega

theorem sampleSwap_subset {α : Type} :
    ∀ (k : Nat) (pool : List α) (draws : Nat → Nat) (x : α),
      x ∈ sampleSwap pool k draws → x ∈ pool := by
  intro k
  induction k with
  | zero => intro pool draws x hx; simp [sampleSwap] at hx
  | succ k ih =>
      intro pool draws x hx
      simp only [sampleSwap] at hx
      by_cases hp : 0 < pool.length
      · rw [dif_pos hp] at hx
        rcases List.mem_cons.mp hx with h | h
        · rw [h]
          exact List.get_mem _ _ _
        · have h2 := ih _ _ _ h
          have h3 := List.mem_of_mem_take h2
          rcases List.mem_or_eq_of_mem_set h3 with h4 | h4
          · exact h4
          · rw [h4]
            exact List.get_mem _ _ _
      · rw [dif_neg hp] at hx
        simp at hx

theorem set_take_not_mem {α : Type} (pool : List α) (hp : 0 < pool.length)
    (j : Nat) (hj : j < pool.length) (hnd : pool.Nodup) :
    pool[j] ∉
      (pool.set j (pool.get ⟨pool.length - 1, by omega⟩)).take (pool.length - 1) := by
  intro hmem
  obtain ⟨i, hi, hig⟩ := List.getElem_of_mem hmem
  have hi2 : i < pool.length - 1 := by
    simpa [List.length_take, List.length_set] using hi
  rw [List.getElem_take, List.getElem_set] at hig
  have hinj := List.nodup_iff_injective_getElem.mp hnd
  split_ifs at hig with hji
  · have h5 := @hinj ⟨pool.length - 1, by omega⟩ ⟨j, hj⟩ hig
    have hv := congrArg Fin.val h5
    simp at hv
    omega
  · have h5 := @hinj ⟨i, by omega⟩ ⟨j, hj⟩ hig
    have hv := congrArg Fin.val h5
    simp at hv
    exact hji hv.symm

theorem set_take_nodup {α : Type} (pool : List α) (hp : 0 < pool.length)
    (j : Nat) (hnd : pool.Nodup) :
    ((pool.set j (pool.get ⟨pool.length - 1, by omega⟩)).take (pool.length - 1)).Nodup := by
  rw [List.nodup_iff_injective_getElem]
  intro a b heq
  simp only at heq
  have hla : a.1 < pool.length - 1 := by
    have h2 := a.2
    simpa [List.length_take, List.length_set] using h2
  have hlb : b.1 < pool.length - 1 := by
    have h2 := b.2
    simpa [List.length_take, List.length_set] using h2
  rw [List.getElem_take, List.getElem_set, List.getElem_take, List.getElem_set] at heq
  have hinj := List.nodup_iff_injective_getElem.mp hnd
  apply Fin.ext
  split_ifs at heq with h1 h2 h2
  · omega
  · have h5 := @hinj ⟨pool.length - 1, by omega⟩ ⟨b.1, by omega⟩ heq
    have hv := congrArg Fin.val h5
    simp at hv
    omega
  · have h5 := @hinj ⟨a.1, by omega⟩ ⟨pool.length - 1, by omega⟩ heq
    have hv := congrArg Fin.val h5
    simp at hv
    omega
  · have h5 := @hinj ⟨a.1, by omega⟩ ⟨b.1, by omega⟩ heq
    have hv := congrArg Fin.val h5
    simp at hv
    omega

theorem sampleSwap_nodup {α : Type} :
    ∀ (k : Nat) (pool : List α) (draws : Nat → Nat), pool.Nodup →
      (sampleSwap pool k draws).Nodup := by
  intro k
  induction k with
  | zero => intro pool draws _; exact List.nodup_nil
  | succ k ih =>
      intro pool draws hnd
      simp only [sampleSwap]
      by_cases hp : 0 < pool.length
      · rw [dif_pos hp]
        refine List.nodup_cons.mpr ⟨?_, ?_⟩
        · intro hx
          have h2 := sampleSwap_subset _ _ _ _ hx
          exact set_take_not_mem pool hp _ (Nat.mod_lt _ hp) hnd h2
        · refine ih _ _ ?_
          exact set_take_nodup pool hp _ hnd
      · rw [dif_neg hp]
        exact List.nodup_nil

/-- C10: for every limit ≥ 1, the suggestion-mode search returns exactly
`min limit 6` results, without repetition, each carrying one of the six
fixed suggestion phrases as its query (so the engine's image pool never
exceeds 6 entries and cycling kicks in beyond that). -/
theorem C10_suggestion_pool (seedImpl : Nat → Nat → Nat) (hashImpl : String → Int)
    (rng : Nat → Nat) (query : String) (limit : Nat) (open_links : Bool)
    (_h : 1 ≤ limit) :
    (suggestion_search seedImpl hashImpl rng query limit open_links).length
        = min limit 6 ∧
    ((suggestion_search seedImpl hashImpl rng query limit open_links).map
        ImageResult.query).Nodup ∧
    ∀ r ∈ suggestion_search seedImpl hashImpl rng query limit open_links,
      r.query ∈ SUGGESTIONS := by
  have hnd : SUGGESTIONS.Nodup := by decide
  have hk : min limit SUGGESTIONS.length ≤ SUGGESTIONS.length := Nat.min_le_right _ _
  unfold suggestion_search
  cases open_links with
  | true =>
      rw [if_pos rfl]
      refine ⟨?_, ?_, ?_⟩
      · rw [List.length_map, sampleSwap_length _ _ _ hk,
          show SUGGESTIONS.length = 6 from rfl]
      · rw [List.map_map]
        have hcomp : (ImageResult.query ∘ fun pick =>
            (⟨pick, some (picsum_url pick)⟩ : ImageResult)) = fun pick => pick := rfl
        rw [hcomp, List.map_id']
        exact sampleSwap_nodup _ _ _ hnd
      · intro r hr
        obtain ⟨pick, hpick, hre⟩ := List.mem_map.mp hr
        rw [← hre]
        exact sampleSwap_subset _ _ _ _ hpick
  | false =>
      rw [if_neg (by simp)]
      refine ⟨?_, ?_, ?_⟩
      · rw [List.length_map, sampleSwap_length _ _ _ hk,
          show SUGGESTIONS.length = 6 from rfl]
      · rw [List.map_map]
        have hcomp : (ImageResult.query ∘ fun pick =>
            (⟨pick, none⟩ : ImageResult)) = fun pick => pick := rfl
        rw [hcomp, List.map_id']
        exact sampleSwap_nodup _ _ _ hnd
      · intro r hr
        obtain ⟨pick, hpick, hre⟩ := List.mem_map.mp hr
        rw [← hre]
        exact sampleSwap_subset _ _ _ _ hpick

theorem C10_suggestion_pool_witness :
    1 ≤ 2 ∧
    ((suggestion_search (fun s i => s + i) (fun q => (q.length : Int)) (fun n => n)
        "espresso deal" 2 false).length = min 2 6 ∧
    ((suggestion_search (fun s i => s + i) (fun q => (q.length : Int)) (fun n => n)
        "espresso deal" 2 false).map ImageResult.query).Nodup ∧
    ∀ r ∈ suggestion_search (fun s i => s + i) (fun q => (q.length : Int)) (fun n => n)
        "espresso deal" 2 false, r.query ∈ SUGGESTIONS) :=
  ⟨by decide, C10_suggestion_pool (fun s i => s + i) (fun q => (q.length : Int))
    (fun n => n) "espresso deal" 2 false (by decide)⟩

end VibeWriter
